import Mathlib

/-!
Verification development for the Kafka → ClickHouse property-tax collapsing
pipeline.

Shallow embedding of the repository's two source modules:

* `src/collapsing/03_collapsing_logic.py` — the core insert/update
  classification and CollapsingMergeTree row generation
  (`is_insert`, `generate_collapsing_rows`, `process_batch`);
* `src/collapsing/dags/property_collapsing_dag.py` — the Airflow DAG
  (`check_idempotency`, `fetch_raw_events`, `process_events`,
  `batch_insert`, `update_state`, `trigger_mart_refresh`).

Modelling conventions:

* Python `datetime` values and epoch-millisecond integers are modelled as
  `Int`.  `datetime.fromtimestamp(ms / 1000)` is an injective external
  conversion; a converted timestamp is modelled by its epoch-millisecond
  preimage.  The `Float64` area columns are modelled as `ℚ` (the source
  performs no floating-point arithmetic on them — values are only defaulted
  and passed through).
* Python dict access `d.get(key, default)` on parsed JSON is modelled by
  `Option` fields read with `Option.getD`; a field that may carry an
  explicit JSON `null` is `Option (Option _)` (`none` = key missing,
  `some none` = key present and null).
* The external ClickHouse stores are modelled as Lean lists; a `SELECT`'s
  `WHERE` clause is a `filter` and its `ORDER BY` an insertion sort by the
  corresponding relation.
-/

namespace PropertyCollapsing

/-- Fields of the `auditDetails` JSON object read by the DAG. -/
structure AuditDetails where
  createdBy : Option String
  createdTime : Option Int
  lastModifiedBy : Option String
  lastModifiedTime : Option Int
deriving DecidableEq

/-- Fields of the `property` JSON object read by the DAG.  The two area
fields distinguish a missing key (`none`) from an explicit JSON `null`
(`some none`). -/
structure PropertyPayload where
  propertyId : Option String
  version : Option Int
  id : Option String
  surveyId : Option String
  accountId : Option String
  oldPropertyId : Option String
  propertyType : Option String
  usageCategory : Option String
  ownershipCategory : Option String
  status : Option String
  acknowldgementNumber : Option String
  creationReason : Option String
  noOfFloors : Option Int
  source : Option String
  channel : Option String
  landArea : Option (Option ℚ)
  superBuiltUpArea : Option (Option ℚ)
  auditDetails : Option AuditDetails
deriving DecidableEq

/-- Default for `event.get("property", {})` when the key is missing. -/
def emptyPayload : PropertyPayload :=
  ⟨none, none, none, none, none, none, none, none, none, none, none, none,
   none, none, none, none, none, none⟩

/-- Default for `prop.get("auditDetails", {})` when the key is missing. -/
def emptyAudit : AuditDetails := ⟨none, none, none, none⟩

/-- One parsed Kafka message (`event` in `process_events`). -/
structure PropertyEventJson where
  tenantId : Option String
  property : Option PropertyPayload
deriving DecidableEq

instance : Inhabited PropertyEventJson := ⟨⟨none, none⟩⟩

/-- A row of the `property_collapsing` CollapsingMergeTree table as built by
`process_events` (the 22 payload columns plus `sign`). -/
structure ChRow where
  tenant_id : String
  property_id : String
  version : Int
  id : String
  survey_id : String
  account_id : String
  old_property_id : String
  property_type : String
  usage_category : String
  ownership_category : String
  status : String
  acknowledgement_number : String
  creation_reason : String
  no_of_floors : Int
  source : String
  channel : String
  land_area : ℚ
  super_built_up_area : ℚ
  created_by : String
  created_time : Option Int
  last_modified_by : String
  last_modified_time : Option Int
  sign : Int
deriving DecidableEq

/-- Accessor for `event.get("property", {})`. -/
def propOf (e : PropertyEventJson) : PropertyPayload := e.property.getD emptyPayload

/-- Accessor for `prop.get("auditDetails", {})`. -/
def auditOf (e : PropertyEventJson) : AuditDetails :=
  (propOf e).auditDetails.getD emptyAudit

/-- Value of `prop.get("auditDetails", {}).get("createdTime", 0)`. -/
def createdOf (e : PropertyEventJson) : Int := (auditOf e).createdTime.getD 0

/-- Value of `prop.get("auditDetails", {}).get("lastModifiedTime", 0)`. -/
def modifiedOf (e : PropertyEventJson) : Int :=
  (auditOf e).lastModifiedTime.getD 0

/-- Entity key `(tenant_id, property_id)` of an event, with the DAG's
empty-string defaults. -/
def keyOf (e : PropertyEventJson) : String × String :=
  (e.tenantId.getD "", (propOf e).propertyId.getD "")

/-- Classification in the DAG loop: `is_update = created_time != modified_time`
(line 289), on the zero-defaulted timestamps. -/
def is_update (e : PropertyEventJson) : Bool := createdOf e != modifiedOf e

/-- Value of `float(prop.get(field, 0) or 0)`: a missing key, a JSON `null`
and the falsy value `0` all become `0.0`; any other number passes through. -/
def floatOrZero : Option (Option ℚ) → ℚ
  | some (some x) => x
  | _ => 0

/-- Value of `datetime.fromtimestamp(t / 1000) if t else None`: the
conversion to `datetime` is injective on the millisecond timestamps, so the
resulting timestamp is modelled by its millisecond preimage `t`. -/
def tsOf (t : Int) : Option Int := if t ≠ 0 then some t else none

/-- The `new_row` dict built for every event (DAG lines 264–287), carrying
the `sign = 1` that every emission path later assigns to it. -/
def new_row (e : PropertyEventJson) : ChRow :=
  let prop := propOf e
  let audit := auditOf e
  { tenant_id := e.tenantId.getD ""
    property_id := prop.propertyId.getD ""
    version := prop.version.getD 1
    id := prop.id.getD ""
    survey_id := prop.surveyId.getD ""
    account_id := prop.accountId.getD ""
    old_property_id := prop.oldPropertyId.getD ""
    property_type := prop.propertyType.getD ""
    usage_category := prop.usageCategory.getD ""
    ownership_category := prop.ownershipCategory.getD ""
    status := prop.status.getD ""
    acknowledgement_number := prop.acknowldgementNumber.getD ""
    creation_reason := prop.creationReason.getD ""
    no_of_floors := prop.noOfFloors.getD 0
    source := prop.source.getD ""
    channel := prop.channel.getD ""
    land_area := floatOrZero prop.landArea
    super_built_up_area := floatOrZero prop.superBuiltUpArea
    created_by := audit.createdBy.getD ""
    created_time := tsOf (createdOf e)
    last_modified_by := audit.lastModifiedBy.getD ""
    last_modified_time := tsOf (modifiedOf e)
    sign := 1 }

/-- Entity key of a persisted row. -/
def rowKey (r : ChRow) : String × String := (r.tenant_id, r.property_id)

/-- The in-batch `current_state` dict, keyed by `(tenant_id, property_id)`. -/
def StateMap := String × String → Option ChRow

/-- The empty dict. -/
def emptyState : StateMap := fun _ => none

/-- Dict update `m[k] = v` (generic over the row type). -/
def mapUpd {R : Type} (m : String × String → Option R) (k : String × String)
    (v : R) : String × String → Option R :=
  fun k' => if k' = k then some v else m k'

/-- One iteration of the event loop of `process_events` (DAG lines 253–311):
the rows appended to `rows_to_insert` and the updated `current_state`.  The
first case is `if is_update and key in current_state` (cancel old, insert
new); the other two are the `else` branch (plain insert); every branch then
records `current_state[key] = new_row`. -/
def stepEvent (cs : StateMap) (e : PropertyEventJson) : List ChRow × StateMap :=
  match is_update e, cs (keyOf e) with
  | true, some old =>
    ([{ old with sign := -1 }, new_row e], mapUpd cs (keyOf e) (new_row e))
  | true, none => ([new_row e], mapUpd cs (keyOf e) (new_row e))
  | false, _ => ([new_row e], mapUpd cs (keyOf e) (new_row e))

/-- Observable log records of one iteration of the event loop: no branch of
the loop body (DAG lines 289–311) contains a logging call — in particular
the update-without-prior-state fallback does not — so the per-event log
trace is empty for every input. -/
def stepEventLogRecords (_cs : StateMap) (_e : PropertyEventJson) :
    List String := []

/-- The full event loop; the accumulator pair is
`(rows_to_insert, current_state)`. -/
def eventLoop : List ChRow × StateMap → List PropertyEventJson → List ChRow × StateMap
  | acc, [] => acc
  | (rows, cs), e :: rest => eventLoop (rows ++ (stepEvent cs e).1, (stepEvent cs e).2) rest

/-- The `potential_update_keys` Python `set` (DAG lines 188–195), modelled
as a duplicate-free list in insertion order (only membership in the set is
consumed downstream). -/
def pukAux (acc : List (String × String)) :
    List PropertyEventJson → List (String × String)
  | [] => acc
  | e :: rest =>
    if is_update e then
      (if keyOf e ∈ acc then pukAux acc rest else pukAux (acc ++ [keyOf e]) rest)
    else pukAux acc rest

/-- Keys of all UPDATE-classified events of the batch. -/
def potential_update_keys (events : List PropertyEventJson) :
    List (String × String) :=
  pukAux [] events

/-- Strict order on strings by their character lists (the store's
lexicographic collation), stated on `List Char` so that it evaluates by
kernel reduction. -/
def strLt (a b : String) : Prop := List.lt a.toList b.toList

instance : DecidableRel strLt := fun a b =>
  List.hasDecidableLt a.toList b.toList

theorem strLt_iff (a b : String) : strLt a b ↔ a < b :=
  (List.lt_iff_lex_lt a.toList b.toList).trans String.lt_iff_toList_lt.symm

/-- Strict lexicographic order on `(tenant_id, property_id)` keys. -/
def keyLt (p q : String × String) : Prop :=
  strLt p.1 q.1 ∨ (p.1 = q.1 ∧ strLt p.2 q.2)

instance : DecidableRel keyLt := fun p q =>
  inferInstanceAs (Decidable (strLt p.1 q.1 ∨ (p.1 = q.1 ∧ strLt p.2 q.2)))

/-- The relation realised by `ORDER BY tenant_id, property_id, version DESC`,
generic over the row type. -/
def rowRel {R : Type} (key : R → String × String) (ver : R → Int) (a b : R) :
    Prop :=
  keyLt (key a) (key b) ∨ (key a = key b ∧ ver b ≤ ver a)

instance rowRelDecidable {R : Type} (key : R → String × String)
    (ver : R → Int) : DecidableRel (rowRel key ver) := fun a b =>
  inferInstanceAs
    (Decidable (keyLt (key a) (key b) ∨ (key a = key b ∧ ver b ≤ ver a)))

/-- The client-side "latest wins" reduction
(`if key not in current_state: current_state[key] = row`), generic over the
row type. -/
def keepFirst {R : Type} (key : R → String × String) :
    (String × String → Option R) → List R → (String × String → Option R)
  | m, [] => m
  | m, r :: rest =>
    keepFirst key (if (m (key r)).isSome then m else mapUpd m (key r) r) rest

/-- The batched prior-state lookup
`WHERE (tenant_id, property_id) IN keys AND sign = 1 ORDER BY tenant_id,
property_id, version DESC`; the external store's sort is modelled as an
insertion sort by `rowRel`. -/
def queryRows {R : Type} (key : R → String × String) (ver sgn : R → Int)
    (table : List R) (keys : List (String × String)) : List R :=
  List.insertionSort (rowRel key ver)
    (table.filter (fun r => sgn r == 1 && decide (key r ∈ keys)))

/-- The `current_state` dict as populated from the store before the event
loop (DAG lines 197–247); the query only runs when `potential_update_keys`
is non-empty.  Rows loaded here satisfy `sign = 1` by the query's filter. -/
def initial_state (table : List ChRow) (events : List PropertyEventJson) :
    StateMap :=
  let keys := potential_update_keys events
  if keys.isEmpty then emptyState
  else keepFirst rowKey emptyState (queryRows rowKey ChRow.version ChRow.sign table keys)

/-- The `process_events` DAG task: the `rows_to_insert` list it returns.
(The surrounding idempotency and empty-batch guards live in `runWindow`.) -/
def process_events (table : List ChRow) (events : List PropertyEventJson) :
    List ChRow :=
  (eventLoop ([], initial_state table events) events).1

/-- Whether `process_events` issues the prior-state query against the row
store: guarded by `if potential_update_keys:` (DAG line 199). -/
def dagLookupPerformed (events : List PropertyEventJson) : Bool :=
  !(potential_update_keys events).isEmpty

/-- The `fetch_raw_events` DAG task (lines 133–168) with `json.loads`
abstracted as a `parse` parameter: a payload that fails to parse is logged
and skipped (`continue`); parsed events are appended in order.  Returns the
event list and the error-log records. -/
def fetch_raw_events (parse : String → Option PropertyEventJson)
    (payloads : List String) : List PropertyEventJson × List String :=
  payloads.foldl
    (fun acc p =>
      match parse p with
      | some ev => (acc.1 ++ [ev], acc.2)
      | none => (acc.1, acc.2 ++ ["Failed to parse JSON: " ++ p]))
    ([], [])

/-! Embedding of `03_collapsing_logic.py`. -/

/-- The `PropertyEvent` dataclass; `datetime` values are modelled as `Int`. -/
structure PropertyEvent where
  tenant_id : String
  property_id : String
  version : Int
  status : String
  usage_category : String
  ownership_category : String
  created_time : Int
  last_modified_time : Int
deriving DecidableEq

/-- The `CollapsingRow` dataclass. -/
structure CollapsingRow where
  tenant_id : String
  property_id : String
  version : Int
  sign : Int
  status : String
  usage_category : String
  ownership_category : String
  created_time : Int
  last_modified_time : Int
deriving DecidableEq

/-- Classification: `created_time == last_modified_time` means INSERT. -/
def is_insert (e : PropertyEvent) : Bool :=
  e.created_time == e.last_modified_time

/-- The `sign = +1` row built from an event (both emission branches of
`generate_collapsing_rows` build exactly this row). -/
def plusRow (e : PropertyEvent) : CollapsingRow :=
  { tenant_id := e.tenant_id, property_id := e.property_id,
    version := e.version, sign := 1, status := e.status,
    usage_category := e.usage_category,
    ownership_category := e.ownership_category,
    created_time := e.created_time,
    last_modified_time := e.last_modified_time }

/-- The cancellation row: the exact same values as `current_state` with
`sign = -1`. -/
def cancelRow (c : CollapsingRow) : CollapsingRow := { c with sign := -1 }

/-- The `generate_collapsing_rows` function. -/
def generate_collapsing_rows (e : PropertyEvent)
    (current_state : Option CollapsingRow) : List CollapsingRow :=
  if is_insert e then [plusRow e]
  else
    match current_state with
    | some c => [cancelRow c, plusRow e]
    | none => [plusRow e]

/-- Entity key of an event of the pseudocode module. -/
def evKey (e : PropertyEvent) : String × String := (e.tenant_id, e.property_id)

/-- Entity key of a row of the pseudocode module. -/
def cKey (r : CollapsingRow) : String × String := (r.tenant_id, r.property_id)

/-- One iteration of the update loop of `process_batch` (lines 219–229):
the rows appended to `all_rows`, and `current_states` updated so that the
first emitted `+1` row becomes the key's new state
(`[r for r in rows if r.sign == +1][0]`; the `[]` fallback case is
unreachable because `generate_collapsing_rows` always emits a `+1` row). -/
def batchUpdStep (cs : String × String → Option CollapsingRow)
    (e : PropertyEvent) :
    List CollapsingRow × (String × String → Option CollapsingRow) :=
  (generate_collapsing_rows e (cs (evKey e)),
    match (generate_collapsing_rows e (cs (evKey e))).filter
        (fun r => r.sign == 1) with
    | r :: _ => mapUpd cs (evKey e) r
    | [] => cs)

/-- The update loop of `process_batch`, accumulating `all_rows`. -/
def batchUpdLoop :
    List CollapsingRow × (String × String → Option CollapsingRow) →
    List PropertyEvent →
    List CollapsingRow × (String × String → Option CollapsingRow)
  | acc, [] => acc
  | (rows, cs), e :: rest =>
    batchUpdLoop (rows ++ (batchUpdStep cs e).1, (batchUpdStep cs e).2) rest

/-- The `current_states` dict of `process_batch` as populated from the store
(lines 178–211): requested keys are deduplicated (`list(set(keys))`,
modelled as `List.dedup` — only set membership is consumed downstream), the
query is issued only when `update_events` is non-empty, and the sorted
result is reduced keeping only the first (highest-version) row per key. -/
def batchStates (table : List CollapsingRow) (events : List PropertyEvent) :
    String × String → Option CollapsingRow :=
  let update_events := events.filter (fun e => !is_insert e)
  if update_events.isEmpty then (fun _ => none)
  else
    keepFirst cKey (fun _ => none)
      (queryRows cKey CollapsingRow.version CollapsingRow.sign table
        ((update_events.map evKey).dedup))

/-- The insert-class rows of `process_batch` (lines 216–217): all
INSERT-classified events are processed first, against `None` prior state. -/
def batchInsRows (events : List PropertyEvent) : List CollapsingRow :=
  (events.filter (fun e => is_insert e)).foldl
    (fun acc e => acc ++ generate_collapsing_rows e none) []

/-- The `process_batch` function of `03_collapsing_logic.py`: partitions the
batch into insert and update classes, batch-fetches prior state for the
update class, emits all insert-class rows and then all update-class rows,
and returns `(all_rows, len(all_rows))`. -/
def process_batch (table : List CollapsingRow) (events : List PropertyEvent) :
    List CollapsingRow × Nat :=
  let update_events := events.filter (fun e => !is_insert e)
  let all_rows := (batchUpdLoop (batchInsRows events, batchStates table events) update_events).1
  (all_rows, all_rows.length)

/-! Window-coordinator model (the DAG run as a whole). -/

/-- One record of `airflow_processing_state`.  The wall-clock audit columns
`started_at`/`completed_at` are elided (real time is outside the embedding),
and the sha-256 idempotency fingerprint is modelled by a deterministic
injection of the pipeline identity and execution date. -/
structure WindowRecord where
  execDate : Int
  windowStart : Int
  windowEnd : Int
  recordsProcessed : Nat
  status : String
  idempotencyKey : String
deriving DecidableEq

/-- Deterministic stand-in for
`sha256(f"{dag_id}:{execution_date}").hexdigest()[:32]`. -/
def idemKeyOf (execDate : Int) : String :=
  "property_collapsing_etl:" ++ toString execDate

/-- All external stores touched by one DAG run.  `staging` holds the raw
payloads of the current window (the `_consumed_at` time filter is the
external store's concern); `martWrites` counts mart-refresh `INSERT`
statements executed by `trigger_mart_refresh`. -/
structure SysState where
  staging : List String
  collapsing : List ChRow
  procState : List WindowRecord
  martWrites : Nat
deriving DecidableEq

/-- Lookup `SELECT … FROM airflow_processing_state FINAL WHERE …`: the
replacing engine's `FINAL` keeps the latest inserted version per key,
modelled as the last matching record of the append-only list. -/
def lookupState (store : List WindowRecord) (d : Int) : Option WindowRecord :=
  (store.filter (fun r => r.execDate == d)).getLast?

/-- The configured window length, in minutes. -/
def WINDOW_MINUTES : Int := 15

/-- The `running` record inserted when a fresh window begins. -/
def runningRecord (d : Int) : WindowRecord :=
  { execDate := d, windowStart := d - WINDOW_MINUTES, windowEnd := d,
    recordsProcessed := 0, status := "running",
    idempotencyKey := idemKeyOf d }

/-- The `check_idempotency` DAG task: short-circuits when a `completed`
record exists for this execution date, returning the stored count;
otherwise inserts a `running` record. -/
def check_idempotency (sys : SysState) (d : Int) : (Bool × Nat) × SysState :=
  match lookupState sys.procState d with
  | some r =>
    if r.status = "completed" then ((true, r.recordsProcessed), sys)
    else ((false, 0), { sys with procState := sys.procState ++ [runningRecord d] })
  | none => ((false, 0), { sys with procState := sys.procState ++ [runningRecord d] })

/-- The `batch_insert` DAG task: on replay it returns the stored count
without touching the store; otherwise it appends every row (the chunking by
`BATCH_SIZE` only splits the append) and returns the number inserted. -/
def batch_insert (sys : SysState) (already : Bool) (storedCount : Nat)
    (rows : List ChRow) : Nat × SysState :=
  if already then (storedCount, sys)
  else if rows.isEmpty then (0, sys)
  else (rows.length, { sys with collapsing := sys.collapsing ++ rows })

/-- The `update_state` DAG task: appends the `completed` record carrying the
final count, unless replaying. -/
def update_state (sys : SysState) (already : Bool) (d : Int) (count : Nat) :
    SysState :=
  if already then sys
  else
    { sys with procState := sys.procState ++
        [{ execDate := d, windowStart := d - WINDOW_MINUTES, windowEnd := d,
           recordsProcessed := count, status := "completed",
           idempotencyKey := idemKeyOf d }] }

/-- The `trigger_mart_refresh` DAG task: skipped exactly when the count it
receives is zero; otherwise it executes the mart `INSERT` queries.  Returns
the updated stores and whether the refresh fired. -/
def trigger_mart_refresh (sys : SysState) (recordsInserted : Nat) :
    SysState × Bool :=
  if recordsInserted == 0 then (sys, false)
  else ({ sys with martWrites := sys.martWrites + 1 }, true)

/-- One whole DAG run for one execution date: `check_idempotency →
fetch_raw_events → process_events → batch_insert → update_state →
trigger_mart_refresh`.  Returns the final stores, the count returned by
`batch_insert` (the value that flows to the downstream tasks) and whether
the mart refresh fired. -/
def runWindow (parse : String → Option PropertyEventJson) (sys : SysState)
    (d : Int) : SysState × Nat × Bool :=
  let idem := check_idempotency sys d
  let already := idem.1.1
  let storedCount := idem.1.2
  let sys1 := idem.2
  let events := if already then [] else (fetch_raw_events parse sys1.staging).1
  let rows := if already || events.isEmpty then [] else process_events sys1.collapsing events
  let ins := batch_insert sys1 already storedCount rows
  let sys3 := update_state ins.2 already d ins.1
  let mart := trigger_mart_refresh sys3 ins.1
  (mart.1, ins.1, mart.2)

/-! Properties of the key order, the sort relation and `keepFirst`. -/

theorem keyLt_irrefl (p : String × String) : ¬ keyLt p p := by
  unfold keyLt
  simp only [strLt_iff]
  rintro (h | ⟨-, h⟩) <;> exact lt_irrefl _ h

theorem keyLt_trans {p q s : String × String} (h1 : keyLt p q)
    (h2 : keyLt q s) : keyLt p s := by
  unfold keyLt at h1 h2 ⊢
  simp only [strLt_iff] at h1 h2 ⊢
  rcases h1 with h1 | ⟨e1, h1⟩
  · rcases h2 with h2 | ⟨e2, h2⟩
    · exact Or.inl (lt_trans h1 h2)
    · exact Or.inl (by rw [← e2]; exact h1)
  · rcases h2 with h2 | ⟨e2, h2⟩
    · exact Or.inl (by rw [e1]; exact h2)
    · exact Or.inr ⟨e1.trans e2, lt_trans h1 h2⟩

theorem keyLt_trichotomy (p q : String × String) :
    keyLt p q ∨ p = q ∨ keyLt q p := by
  unfold keyLt
  simp only [strLt_iff]
  rcases lt_trichotomy p.1 q.1 with h | h | h
  · exact Or.inl (Or.inl h)
  · rcases lt_trichotomy p.2 q.2 with h2 | h2 | h2
    · exact Or.inl (Or.inr ⟨h, h2⟩)
    · exact Or.inr (Or.inl (Prod.ext_iff.mpr ⟨h, h2⟩))
    · exact Or.inr (Or.inr (Or.inr ⟨h.symm, h2⟩))
  · exact Or.inr (Or.inr (Or.inl h))

instance rowRelTotal {R : Type} (key : R → String × String) (ver : R → Int) :
    IsTotal R (rowRel key ver) := by
  constructor
  intro a b
  unfold rowRel
  rcases keyLt_trichotomy (key a) (key b) with h | h | h
  · exact Or.inl (Or.inl h)
  · rcases Int.le_total (ver a) (ver b) with h2 | h2
    · exact Or.inr (Or.inr ⟨h.symm, h2⟩)
    · exact Or.inl (Or.inr ⟨h, h2⟩)
  · exact Or.inr (Or.inl h)

instance rowRelTrans {R : Type} (key : R → String × String) (ver : R → Int) :
    IsTrans R (rowRel key ver) := by
  constructor
  intro a b c hab hbc
  unfold rowRel at hab hbc ⊢
  rcases hab with hab | ⟨eab, vab⟩
  · rcases hbc with hbc | ⟨ebc, _⟩
    · exact Or.inl (keyLt_trans hab hbc)
    · exact Or.inl (by rw [← ebc]; exact hab)
  · rcases hbc with hbc | ⟨ebc, vbc⟩
    · exact Or.inl (by rw [eab]; exact hbc)
    · exact Or.inr ⟨eab.trans ebc, le_trans vbc vab⟩

theorem keepFirst_keyInv {R : Type} (key : R → String × String) :
    ∀ (l : List R) (m : String × String → Option R),
      (∀ k r, m k = some r → key r = k) →
      ∀ k r, keepFirst key m l k = some r → key r = k := by
  intro l
  induction l with
  | nil => intro m hm k r h; exact hm k r h
  | cons x rest ih =>
    intro m hm k r h
    rw [keepFirst] at h
    refine ih _ ?_ k r h
    intro k' r' h'
    by_cases hs : (m (key x)).isSome
    · rw [if_pos hs] at h'; exact hm k' r' h'
    · rw [if_neg hs] at h'
      unfold mapUpd at h'
      by_cases he : k' = key x
      · rw [if_pos he] at h'
        injection h' with h''
        rw [← h'']
        exact he.symm
      · rw [if_neg he] at h'; exact hm k' r' h'

theorem keepFirst_isSome {R : Type} (key : R → String × String) :
    ∀ (l : List R) (m : String × String → Option R) (k : String × String),
      (keepFirst key m l k).isSome ↔ (m k).isSome ∨ ∃ r ∈ l, key r = k := by
  intro l
  induction l with
  | nil => intro m k; simp [keepFirst]
  | cons x rest ih =>
    intro m k
    rw [keepFirst, ih]
    by_cases hs : (m (key x)).isSome
    · rw [if_pos hs]
      constructor
      · rintro (h | ⟨r, hr, hk⟩)
        · exact Or.inl h
        · exact Or.inr ⟨r, List.mem_cons_of_mem _ hr, hk⟩
      · rintro (h | ⟨r, hr, hk⟩)
        · exact Or.inl h
        · rcases List.mem_cons.mp hr with rfl | hr
          · rw [← hk]; exact Or.inl hs
          · exact Or.inr ⟨r, hr, hk⟩
    · rw [if_neg hs]
      by_cases hk : k = key x
      · subst hk
        constructor
        · intro _; exact Or.inr ⟨x, List.mem_cons_self _ _, rfl⟩
        · intro _
          refine Or.inl ?_
          unfold mapUpd
          rw [if_pos rfl]
          rfl
      · have hmk : mapUpd m (key x) x k = m k := by
          unfold mapUpd; rw [if_neg hk]
        rw [hmk]
        constructor
        · rintro (h | ⟨r, hr, hkr⟩)
          · exact Or.inl h
          · exact Or.inr ⟨r, List.mem_cons_of_mem _ hr, hkr⟩
        · rintro (h | ⟨r, hr, hkr⟩)
          · exact Or.inl h
          · rcases List.mem_cons.mp hr with rfl | hr
            · exact absurd hkr.symm hk
            · exact Or.inr ⟨r, hr, hkr⟩

theorem keepFirst_spec {R : Type} (key : R → String × String) (ver : R → Int) :
    ∀ (l : List R) (m : String × String → Option R),
      l.Pairwise (rowRel key ver) →
      ∀ k r, keepFirst key m l k = some r →
        m k = some r ∨
          (m k = none ∧ r ∈ l ∧ key r = k ∧
            ∀ r' ∈ l, key r' = k → ver r' ≤ ver r) := by
  intro l
  induction l with
  | nil => intro m _ k r h; exact Or.inl h
  | cons x rest ih =>
    intro m hp k r h
    rw [keepFirst] at h
    rcases List.pairwise_cons.mp hp with ⟨hx, hrest⟩
    by_cases hs : (m (key x)).isSome
    · rw [if_pos hs] at h
      rcases ih m hrest k r h with h' | ⟨hnone, hmem, hkey, hmax⟩
      · exact Or.inl h'
      · refine Or.inr ⟨hnone, List.mem_cons_of_mem _ hmem, hkey, ?_⟩
        intro r' hr' hk'
        rcases List.mem_cons.mp hr' with rfl | hr'
        · exfalso
          rw [hk', hnone] at hs
          simp at hs
        · exact hmax r' hr' hk'
    · rw [if_neg hs] at h
      rcases ih _ hrest k r h with h' | ⟨hnone, hmem, hkey, hmax⟩
      · unfold mapUpd at h'
        by_cases hk : k = key x
        · rw [if_pos hk] at h'
          injection h' with hxr
          subst hxr
          refine Or.inr ⟨?_, List.mem_cons_self _ _, hk.symm, ?_⟩
          · rw [hk]; exact Option.not_isSome_iff_eq_none.mp hs
          · intro r' hr' hk'
            rcases List.mem_cons.mp hr' with rfl | hr'
            · exact le_refl _
            · rcases hx r' hr' with hlt | ⟨-, hle⟩
              · exfalso
                rw [hk', hk] at hlt
                exact keyLt_irrefl _ hlt
              · exact hle
        · rw [if_neg hk] at h'
          exact Or.inl h'
      · have hmk : mapUpd m (key x) x k = none := hnone
        have hkx : k ≠ key x := by
          intro he
          rw [he] at hmk
          unfold mapUpd at hmk
          rw [if_pos rfl] at hmk
          exact Option.noConfusion hmk
        have hmnone : m k = none := by
          unfold mapUpd at hmk
          rw [if_neg hkx] at hmk
          exact hmk
        refine Or.inr ⟨hmnone, List.mem_cons_of_mem _ hmem, hkey, ?_⟩
        intro r' hr' hk'
        rcases List.mem_cons.mp hr' with rfl | hr'
        · exact absurd hk'.symm hkx
        · exact hmax r' hr' hk'

theorem mem_queryRows {R : Type} (key : R → String × String) (ver sgn : R → Int)
    (table : List R) (keys : List (String × String)) (r : R) :
    r ∈ queryRows key ver sgn table keys ↔
      r ∈ table ∧ sgn r = 1 ∧ key r ∈ keys := by
  unfold queryRows
  rw [(List.perm_insertionSort _ _).mem_iff]
  simp [List.mem_filter, and_assoc]

theorem queryRows_pairwise {R : Type} (key : R → String × String)
    (ver sgn : R → Int) (table : List R) (keys : List (String × String)) :
    (queryRows key ver sgn table keys).Pairwise (rowRel key ver) :=
  List.sorted_insertionSort _ _

/-! Structure of the `process_events` loop. -/

/-- Rows emitted by the event loop, presented recursively (proof helper;
`eventLoop_fst` relates it to the accumulator-style loop). -/
def loopRows (cs : StateMap) : List PropertyEventJson → List ChRow
  | [] => []
  | e :: rest => (stepEvent cs e).1 ++ loopRows (stepEvent cs e).2 rest

/-- Per-event row groups of the event loop, with the chained state. -/
def segments (cs : StateMap) : List PropertyEventJson → List (List ChRow)
  | [] => []
  | e :: rest => (stepEvent cs e).1 :: segments (stepEvent cs e).2 rest

theorem eventLoop_fst :
    ∀ (es : List PropertyEventJson) (rows : List ChRow) (cs : StateMap),
      (eventLoop (rows, cs) es).1 = rows ++ loopRows cs es := by
  intro es
  induction es with
  | nil => intro rows cs; simp [eventLoop, loopRows]
  | cons e rest ih =>
    intro rows cs
    rw [eventLoop, loopRows, ih, List.append_assoc]

theorem process_events_eq (table : List ChRow) (events : List PropertyEventJson) :
    process_events table events = loopRows (initial_state table events) events := by
  unfold process_events
  rw [eventLoop_fst]
  exact List.nil_append _

theorem loopRows_eq_join (cs : StateMap) :
    ∀ es, loopRows cs es = (segments cs es).flatten := by
  intro es
  induction es generalizing cs with
  | nil => rfl
  | cons e rest ih => rw [loopRows, segments, List.flatten_cons, ih]

theorem segments_length (cs : StateMap) :
    ∀ es : List PropertyEventJson, (segments cs es).length = es.length := by
  intro es
  induction es generalizing cs with
  | nil => rfl
  | cons e rest ih => rw [segments, List.length_cons, List.length_cons, ih]

/-- Computation rule for the cancel-then-insert branch. -/
theorem stepEvent_eq_update {cs : StateMap} {e : PropertyEventJson}
    {old : ChRow} (hu : is_update e = true) (hold : cs (keyOf e) = some old) :
    stepEvent cs e =
      ([{ old with sign := -1 }, new_row e], mapUpd cs (keyOf e) (new_row e)) := by
  unfold stepEvent
  rw [hu, hold]

/-- Computation rule for the fallback branch (UPDATE with no prior state). -/
theorem stepEvent_eq_fallback {cs : StateMap} {e : PropertyEventJson}
    (hu : is_update e = true) (hold : cs (keyOf e) = none) :
    stepEvent cs e = ([new_row e], mapUpd cs (keyOf e) (new_row e)) := by
  unfold stepEvent
  rw [hu, hold]

/-- Computation rule for the INSERT branch. -/
theorem stepEvent_eq_insert {cs : StateMap} {e : PropertyEventJson}
    (hu : is_update e = false) :
    stepEvent cs e = ([new_row e], mapUpd cs (keyOf e) (new_row e)) := by
  unfold stepEvent
  rw [hu]

/-- Whatever the branch, the loop stores the event's `+1` row under its key. -/
theorem stepEvent_snd (cs : StateMap) (e : PropertyEventJson) :
    (stepEvent cs e).2 = mapUpd cs (keyOf e) (new_row e) := by
  unfold stepEvent
  cases hu : is_update e
  · rfl
  · cases hold : cs (keyOf e) <;> rfl

theorem rowKey_new_row (e : PropertyEventJson) :
    rowKey (new_row e) = keyOf e := rfl

/-- Dict invariant: every row is stored under its own key. -/
def keyInv (cs : StateMap) : Prop := ∀ k r, cs k = some r → rowKey r = k

theorem keyInv_empty : keyInv emptyState := fun _ _ h => Option.noConfusion h

theorem keyInv_mapUpd {cs : StateMap} {k : String × String} {v : ChRow}
    (h : keyInv cs) (hv : rowKey v = k) : keyInv (mapUpd cs k v) := by
  intro k' r h'
  unfold mapUpd at h'
  by_cases he : k' = k
  · rw [if_pos he] at h'
    injection h' with h''
    rw [← h'', hv]
    exact he.symm
  · rw [if_neg he] at h'
    exact h k' r h'

theorem keyInv_step {cs : StateMap} (e : PropertyEventJson) (h : keyInv cs) :
    keyInv (stepEvent cs e).2 := by
  rw [stepEvent_snd]
  exact keyInv_mapUpd h (rowKey_new_row e)

/-- Every row the loop emits for an event carries that event's key. -/
theorem stepEvent_rows_key {cs : StateMap} {e : PropertyEventJson}
    (h : keyInv cs) : ∀ r ∈ (stepEvent cs e).1, rowKey r = keyOf e := by
  intro r hr
  cases hu : is_update e
  · rw [stepEvent_eq_insert hu] at hr
    rw [List.mem_singleton.mp hr]
    exact rowKey_new_row e
  · cases hold : cs (keyOf e) with
    | none =>
      rw [stepEvent_eq_fallback hu hold] at hr
      rw [List.mem_singleton.mp hr]
      exact rowKey_new_row e
    | some old =>
      rw [stepEvent_eq_update hu hold] at hr
      rcases List.mem_cons.mp hr with rfl | hr
      · exact h _ old hold
      · rw [List.mem_singleton.mp hr]
        exact rowKey_new_row e

/-! Per-key row selection and the summed-sign accounting. -/

/-- The emitted rows carrying key `k`. -/
def rowsFor (k : String × String) (rows : List ChRow) : List ChRow :=
  rows.filter (fun r => decide (rowKey r = k))

/-- Sum of the signs of the emitted rows carrying key `k`. -/
def signSumKey (k : String × String) (rows : List ChRow) : Int :=
  ((rowsFor k rows).map ChRow.sign).sum

theorem rowsFor_append (k : String × String) (a b : List ChRow) :
    rowsFor k (a ++ b) = rowsFor k a ++ rowsFor k b := by
  unfold rowsFor
  exact List.filter_append _ _

theorem signSumKey_append (k : String × String) (a b : List ChRow) :
    signSumKey k (a ++ b) = signSumKey k a + signSumKey k b := by
  unfold signSumKey
  rw [rowsFor_append, List.map_append, List.sum_append]

theorem rowsFor_of_ne {k : String × String} {rows : List ChRow}
    (h : ∀ r ∈ rows, rowKey r ≠ k) : rowsFor k rows = [] := by
  unfold rowsFor
  rw [List.filter_eq_nil_iff]
  intro r hr
  simpa using h r hr

theorem signSumKey_of_ne {k : String × String} {rows : List ChRow}
    (h : ∀ r ∈ rows, rowKey r ≠ k) : signSumKey k rows = 0 := by
  unfold signSumKey
  rw [rowsFor_of_ne h]
  rfl

/-- The events of the batch carrying key `k`, in delivery order. -/
def eventsFor (k : String × String) (events : List PropertyEventJson) :
    List PropertyEventJson :=
  events.filter (fun e => decide (keyOf e = k))

/-- A prior persisted live row for key `k`: some `sign = +1` row already in
the collapsing table. -/
def priorPersisted (table : List ChRow) (k : String × String) : Prop :=
  ∃ r ∈ table, r.sign = 1 ∧ rowKey r = k

instance (table : List ChRow) (k : String × String) :
    Decidable (priorPersisted table k) := by
  unfold priorPersisted; exact inferInstance

theorem eventsFor_cons_of_ne {k : String × String} {e : PropertyEventJson}
    (h : keyOf e ≠ k) (rest : List PropertyEventJson) :
    eventsFor k (e :: rest) = eventsFor k rest := by
  unfold eventsFor
  rw [List.filter_cons, if_neg (by simpa using h)]

theorem eventsFor_cons_of_eq {k : String × String} {e : PropertyEventJson}
    (h : keyOf e = k) (rest : List PropertyEventJson) :
    eventsFor k (e :: rest) = e :: eventsFor k rest := by
  unfold eventsFor
  rw [List.filter_cons, if_pos (by simpa using h)]

/-- Once the key is live in `current_state`, every further UPDATE for it
cancels exactly what it inserts: the emitted signs for `k` net to zero. -/
theorem loop_sum_some (k : String × String) :
    ∀ (es : List PropertyEventJson) (cs : StateMap), keyInv cs →
      (cs k).isSome →
      (∀ e ∈ es, keyOf e = k → is_update e = true) →
      signSumKey k (loopRows cs es) = 0 := by
  intro es
  induction es with
  | nil => intro cs _ _ _; rfl
  | cons e rest ih =>
    intro cs hinv hsome hall
    rw [loopRows, signSumKey_append]
    by_cases hk : keyOf e = k
    · obtain ⟨old, hold⟩ := Option.isSome_iff_exists.mp hsome
      have hu := hall e (List.mem_cons_self _ _) hk
      have hstep := stepEvent_eq_update hu (by rw [hk]; exact hold)
      rw [hstep]
      have hco : rowKey { old with sign := -1 } = k := hinv k old hold
      have hnr : rowKey (new_row e) = k := by rw [rowKey_new_row]; exact hk
      have hseg : signSumKey k [{ old with sign := -1 }, new_row e] = 0 := by
        unfold signSumKey rowsFor
        rw [List.filter_cons, if_pos (by simpa using hco),
          List.filter_cons, if_pos (by simpa using hnr)]
        rfl
      rw [hseg]
      have h2 : (mapUpd cs (keyOf e) (new_row e) k).isSome := by
        unfold mapUpd
        rw [if_pos hk.symm]
        rfl
      have h3 : keyInv (mapUpd cs (keyOf e) (new_row e)) :=
        keyInv_mapUpd hinv (rowKey_new_row e)
      rw [ih _ h3 h2 (fun e' he' hk' => hall e' (List.mem_cons_of_mem _ he') hk')]
      rfl
    · have hseg : signSumKey k (stepEvent cs e).1 = 0 :=
        signSumKey_of_ne (fun r hr => by
          rw [stepEvent_rows_key hinv r hr]; exact hk)
      rw [hseg, stepEvent_snd]
      have h2 : (mapUpd cs (keyOf e) (new_row e) k).isSome := by
        unfold mapUpd
        rw [if_neg (fun h => hk h.symm)]
        exact hsome
      have h3 : keyInv (mapUpd cs (keyOf e) (new_row e)) :=
        keyInv_mapUpd hinv (rowKey_new_row e)
      rw [ih _ h3 h2 (fun e' he' hk' => hall e' (List.mem_cons_of_mem _ he') hk')]
      rfl

/-- If the key is not yet live, the first event for it (of either class)
contributes a single `+1`, after which `loop_sum_some` applies: the batch
nets to exactly one live row for the key. -/
theorem loop_sum_none (k : String × String) :
    ∀ (es : List PropertyEventJson) (cs : StateMap), keyInv cs →
      cs k = none →
      (∀ e ∈ (eventsFor k es).tail, is_update e = true) →
      signSumKey k (loopRows cs es) = if eventsFor k es = [] then 0 else 1 := by
  intro es
  induction es with
  | nil => intro cs _ _ _; rfl
  | cons e rest ih =>
    intro cs hinv hnone htail
    rw [loopRows, signSumKey_append]
    by_cases hk : keyOf e = k
    · have hstep : stepEvent cs e = ([new_row e], mapUpd cs (keyOf e) (new_row e)) := by
        cases hu : is_update e
        · exact stepEvent_eq_insert hu
        · exact stepEvent_eq_fallback hu (by rw [hk]; exact hnone)
      rw [hstep]
      have hnr : rowKey (new_row e) = k := by rw [rowKey_new_row]; exact hk
      have hseg : signSumKey k [new_row e] = 1 := by
        unfold signSumKey rowsFor
        rw [List.filter_cons, if_pos (by simpa using hnr)]
        rfl
      rw [hseg]
      have h2 : (mapUpd cs (keyOf e) (new_row e) k).isSome := by
        unfold mapUpd
        rw [if_pos hk.symm]
        rfl
      have h3 : keyInv (mapUpd cs (keyOf e) (new_row e)) :=
        keyInv_mapUpd hinv (rowKey_new_row e)
      have htail' : ∀ e' ∈ rest, keyOf e' = k → is_update e' = true := by
        intro e' he' hk'
        refine htail e' ?_
        rw [eventsFor_cons_of_eq hk, List.tail_cons]
        unfold eventsFor
        rw [List.mem_filter]
        exact ⟨he', by simpa using hk'⟩
      rw [loop_sum_some k rest _ h3 h2 htail']
      rw [eventsFor_cons_of_eq hk]
      simp
    · have hseg : signSumKey k (stepEvent cs e).1 = 0 :=
        signSumKey_of_ne (fun r hr => by
          rw [stepEvent_rows_key hinv r hr]; exact hk)
      rw [hseg, stepEvent_snd]
      have h2 : mapUpd cs (keyOf e) (new_row e) k = none := by
        unfold mapUpd
        rw [if_neg (fun h => hk h.symm)]
        exact hnone
      have h3 : keyInv (mapUpd cs (keyOf e) (new_row e)) :=
        keyInv_mapUpd hinv (rowKey_new_row e)
      rw [ih _ h3 h2 (by rw [← eventsFor_cons_of_ne hk rest]; exact htail)]
      rw [eventsFor_cons_of_ne hk]
      simp

/-- A key untouched by the batch gets no rows. -/
theorem rowsFor_loop_nil (k : String × String) :
    ∀ (es : List PropertyEventJson) (cs : StateMap), keyInv cs →
      eventsFor k es = [] → rowsFor k (loopRows cs es) = [] := by
  intro es
  induction es with
  | nil => intro cs _ _; rfl
  | cons e rest ih =>
    intro cs hinv hev
    have hk : keyOf e ≠ k := by
      intro he
      rw [eventsFor_cons_of_eq he] at hev
      exact List.noConfusion hev
    rw [eventsFor_cons_of_ne hk] at hev
    rw [loopRows, rowsFor_append,
      rowsFor_of_ne (fun r hr => by rw [stepEvent_rows_key hinv r hr]; exact hk),
      ih _ (keyInv_step e hinv) hev]
    rfl

/-- The last row emitted for key `k` is the `+1` row built from the last
event of the batch carrying `k` (every branch of the loop ends its row group
with `new_row`). -/
theorem rowsFor_getLast (k : String × String) :
    ∀ (es : List PropertyEventJson) (cs : StateMap), keyInv cs →
      (rowsFor k (loopRows cs es)).getLast? =
        ((eventsFor k es).getLast?).map new_row := by
  intro es
  induction es with
  | nil => intro cs _; rfl
  | cons e rest ih =>
    intro cs hinv
    rw [loopRows, rowsFor_append]
    by_cases hk : keyOf e = k
    · rw [eventsFor_cons_of_eq hk]
      rcases hrest : eventsFor k rest with _ | ⟨e', t⟩
      · rw [rowsFor_loop_nil k rest _ (keyInv_step e hinv) hrest,
          List.append_nil]
        have hnr : rowKey (new_row e) = k := by rw [rowKey_new_row]; exact hk
        cases hu : is_update e
        · rw [stepEvent_eq_insert hu]
          unfold rowsFor
          rw [List.filter_cons, if_pos (by simpa using hnr)]
          rfl
        · cases hold : cs (keyOf e) with
          | none =>
            rw [stepEvent_eq_fallback hu hold]
            unfold rowsFor
            rw [List.filter_cons, if_pos (by simpa using hnr)]
            rfl
          | some old =>
            rw [stepEvent_eq_update hu hold]
            have hco : rowKey { old with sign := -1 } = k := by
              have := hinv (keyOf e) old hold
              rw [← hk]
              exact this
            unfold rowsFor
            rw [List.filter_cons, if_pos (by simpa using hco),
              List.filter_cons, if_pos (by simpa using hnr)]
            rfl
      · have hne : rowsFor k (loopRows (stepEvent cs e).2 rest) ≠ [] := by
          intro hnil
          have := ih (stepEvent cs e).2 (keyInv_step e hinv)
          rw [hnil, hrest] at this
          exact Option.noConfusion this
        rw [List.getLast?_append_of_ne_nil _ hne,
          ih _ (keyInv_step e hinv), hrest]
        have : (e :: e' :: t).getLast? = (e' :: t).getLast? := by
          rw [show e :: e' :: t = [e] ++ e' :: t from rfl,
            List.getLast?_append_of_ne_nil _ (by exact List.cons_ne_nil _ _)]
        rw [this]
    · rw [eventsFor_cons_of_ne hk,
        rowsFor_of_ne (fun r hr => by rw [stepEvent_rows_key hinv r hr]; exact hk),
        List.nil_append]
      exact ih _ (keyInv_step e hinv)

/-! Characterisation of `potential_update_keys` and `initial_state`. -/

theorem mem_pukAux :
    ∀ (es : List PropertyEventJson) (acc : List (String × String))
      (k : String × String),
      k ∈ pukAux acc es ↔
        k ∈ acc ∨ ∃ e ∈ es, keyOf e = k ∧ is_update e = true := by
  intro es
  induction es with
  | nil => intro acc k; simp [pukAux]
  | cons e rest ih =>
    intro acc k
    rw [pukAux]
    by_cases hu : is_update e
    · rw [if_pos hu]
      by_cases hm : keyOf e ∈ acc
      · rw [if_pos hm, ih]
        constructor
        · rintro (h | ⟨x, hx, hk, hux⟩)
          · exact Or.inl h
          · exact Or.inr ⟨x, List.mem_cons_of_mem _ hx, hk, hux⟩
        · rintro (h | ⟨x, hx, hk, hux⟩)
          · exact Or.inl h
          · rcases List.mem_cons.mp hx with rfl | hx
            · exact Or.inl (hk ▸ hm)
            · exact Or.inr ⟨x, hx, hk, hux⟩
      · rw [if_neg hm, ih]
        constructor
        · rintro (h | ⟨x, hx, hk, hux⟩)
          · rcases List.mem_append.mp h with h | h
            · exact Or.inl h
            · refine Or.inr ⟨e, List.mem_cons_self _ _, ?_, hu⟩
              rw [List.mem_singleton.mp h]
          · exact Or.inr ⟨x, List.mem_cons_of_mem _ hx, hk, hux⟩
        · rintro (h | ⟨x, hx, hk, hux⟩)
          · exact Or.inl (List.mem_append.mpr (Or.inl h))
          · rcases List.mem_cons.mp hx with rfl | hx
            · exact Or.inl (List.mem_append.mpr (Or.inr (by rw [hk]; exact List.mem_singleton_self _)))
            · exact Or.inr ⟨x, hx, hk, hux⟩
    · rw [if_neg hu, ih]
      constructor
      · rintro (h | ⟨x, hx, hk, hux⟩)
        · exact Or.inl h
        · exact Or.inr ⟨x, List.mem_cons_of_mem _ hx, hk, hux⟩
      · rintro (h | ⟨x, hx, hk, hux⟩)
        · exact Or.inl h
        · rcases List.mem_cons.mp hx with rfl | hx
          · exact absurd hux hu
          · exact Or.inr ⟨x, hx, hk, hux⟩

theorem mem_potential_update_keys (events : List PropertyEventJson)
    (k : String × String) :
    k ∈ potential_update_keys events ↔
      ∃ e ∈ events, keyOf e = k ∧ is_update e = true := by
  unfold potential_update_keys
  rw [mem_pukAux]
  simp

theorem pukAux_nodup :
    ∀ (es : List PropertyEventJson) (acc : List (String × String)),
      acc.Nodup → (pukAux acc es).Nodup := by
  intro es
  induction es with
  | nil => intro acc h; exact h
  | cons e rest ih =>
    intro acc h
    rw [pukAux]
    by_cases hu : is_update e
    · rw [if_pos hu]
      by_cases hm : keyOf e ∈ acc
      · rw [if_pos hm]; exact ih acc h
      · rw [if_neg hm]
        refine ih _ ?_
        rw [List.nodup_append]
        exact ⟨h, List.nodup_singleton _, by simpa [List.disjoint_singleton] using hm⟩
    · rw [if_neg hu]; exact ih acc h

theorem potential_update_keys_nodup (events : List PropertyEventJson) :
    (potential_update_keys events).Nodup :=
  pukAux_nodup events [] List.nodup_nil

theorem initial_keyInv (table : List ChRow) (events : List PropertyEventJson) :
    keyInv (initial_state table events) := by
  unfold initial_state
  by_cases h : (potential_update_keys events).isEmpty
  · rw [if_pos h]; exact keyInv_empty
  · rw [if_neg h]
    intro k r hr
    exact keepFirst_keyInv rowKey _ emptyState
      (fun _ _ h' => Option.noConfusion h') k r hr

/-- Every prior-state entry the DAG loads is a live (`sign = 1`) row of the
table under its own key, at the highest version present. -/
theorem initial_state_spec (table : List ChRow) (events : List PropertyEventJson)
    (k : String × String) (r : ChRow)
    (h : initial_state table events k = some r) :
    r ∈ table ∧ r.sign = 1 ∧ rowKey r = k ∧
      ∀ r' ∈ table, r'.sign = 1 → rowKey r' = k → r'.version ≤ r.version := by
  unfold initial_state at h
  by_cases hk : (potential_update_keys events).isEmpty
  · rw [if_pos hk] at h; exact Option.noConfusion h
  · rw [if_neg hk] at h
    rcases keepFirst_spec rowKey ChRow.version _ emptyState
        (queryRows_pairwise _ _ _ _ _) k r h with h' | ⟨-, hmem, hkey, hmax⟩
    · exact Option.noConfusion h'
    · rw [mem_queryRows] at hmem
      obtain ⟨htab, hsgn, hkeys⟩ := hmem
      refine ⟨htab, hsgn, hkey, ?_⟩
      intro r' hr' hs' hk'
      refine hmax r' ?_ hk'
      rw [mem_queryRows]
      refine ⟨hr', hs', ?_⟩
      rw [hk', ← hkey]
      exact hkeys

theorem initial_state_isSome (table : List ChRow)
    (events : List PropertyEventJson) (k : String × String) :
    (initial_state table events k).isSome ↔
      k ∈ potential_update_keys events ∧ priorPersisted table k := by
  unfold initial_state
  by_cases hk : (potential_update_keys events).isEmpty
  · rw [if_pos hk]
    have : potential_update_keys events = [] := by
      cases hpp : potential_update_keys events
      · rfl
      · rw [hpp] at hk; exact Bool.noConfusion hk
    rw [this]
    simp [emptyState]
  · rw [if_neg hk, keepFirst_isSome]
    constructor
    · rintro (h | ⟨r, hr, hkr⟩)
      · exact absurd h (by simp [emptyState])
      · rw [mem_queryRows] at hr
        obtain ⟨htab, hsgn, hkeys⟩ := hr
        exact ⟨hkr ▸ hkeys, ⟨r, htab, hsgn, hkr⟩⟩
    · rintro ⟨hmem, r, htab, hsgn, hkr⟩
      refine Or.inr ⟨r, ?_, hkr⟩
      rw [mem_queryRows]
      exact ⟨htab, hsgn, by rw [hkr]; exact hmem⟩

/-! Helper lemmas for the remaining claims. -/

theorem batchUpdLoop_fst :
    ∀ (es : List PropertyEvent) (rows : List CollapsingRow)
      (cs : String × String → Option CollapsingRow),
      (batchUpdLoop (rows, cs) es).1 = rows ++ (batchUpdLoop ([], cs) es).1 := by
  intro es
  induction es with
  | nil => intro rows cs; simp [batchUpdLoop]
  | cons e rest ih =>
    intro rows cs
    rw [batchUpdLoop, ih]
    conv_rhs => rw [batchUpdLoop, ih]
    rw [List.nil_append, List.append_assoc]

/-- An INSERT-only batch makes the DAG loop a plain map: one `+1` row per
event in order, with no cancellations. -/
theorem loopRows_insert_only :
    ∀ (es : List PropertyEventJson) (cs : StateMap),
      (∀ e ∈ es, is_update e = false) →
      loopRows cs es = es.map new_row := by
  intro es
  induction es with
  | nil => intro cs _; rfl
  | cons e rest ih =>
    intro cs hall
    rw [loopRows, stepEvent_eq_insert (hall e (List.mem_cons_self _ _)),
      ih _ (fun e' h' => hall e' (List.mem_cons_of_mem _ h'))]
    rfl

theorem pukAux_insert_only :
    ∀ (es : List PropertyEventJson) (acc : List (String × String)),
      (∀ e ∈ es, is_update e = false) → pukAux acc es = acc := by
  intro es
  induction es with
  | nil => intro acc _; rfl
  | cons e rest ih =>
    intro acc hall
    rw [pukAux, hall e (List.mem_cons_self _ _)]
    rw [if_neg (by simp)]
    exact ih _ (fun e' h' => hall e' (List.mem_cons_of_mem _ h'))

theorem foldl_gen_insert :
    ∀ (l : List PropertyEvent) (acc : List CollapsingRow),
      (∀ e ∈ l, is_insert e = true) →
      l.foldl (fun acc e => acc ++ generate_collapsing_rows e none) acc =
        acc ++ l.map plusRow := by
  intro l
  induction l with
  | nil => intro acc _; simp
  | cons e rest ih =>
    intro acc hall
    rw [List.foldl_cons]
    have hgen : generate_collapsing_rows e none = [plusRow e] := by
      unfold generate_collapsing_rows
      rw [hall e (List.mem_cons_self _ _)]
      rfl
    rw [hgen, ih _ (fun e' h' => hall e' (List.mem_cons_of_mem _ h'))]
    simp

/-- The loop never rejects an event: each event contributes at least one
row. -/
theorem loopRows_length_ge :
    ∀ (es : List PropertyEventJson) (cs : StateMap),
      es.length ≤ (loopRows cs es).length := by
  intro es
  induction es with
  | nil => intro cs; exact Nat.le_refl 0
  | cons e rest ih =>
    intro cs
    rw [loopRows, List.length_append, List.length_cons]
    have hseg : 1 ≤ (stepEvent cs e).1.length := by
      cases hu : is_update e
      · rw [stepEvent_eq_insert hu]; exact Nat.le_refl 1
      · cases hold : cs (keyOf e) with
        | none => rw [stepEvent_eq_fallback hu hold]; exact Nat.le_refl 1
        | some old =>
          rw [stepEvent_eq_update hu hold]
          exact Nat.le_succ 1
    have := ih (stepEvent cs e).2
    omega

theorem fetch_foldl (parse : String → Option PropertyEventJson) :
    ∀ (ps : List String) (acc : List PropertyEventJson × List String),
      ps.foldl
          (fun acc p =>
            match parse p with
            | some ev => (acc.1 ++ [ev], acc.2)
            | none => (acc.1, acc.2 ++ ["Failed to parse JSON: " ++ p]))
          acc =
        (acc.1 ++ ps.filterMap parse,
          acc.2 ++ (ps.filter (fun p => (parse p).isNone)).map
            (fun p => "Failed to parse JSON: " ++ p)) := by
  intro ps
  induction ps with
  | nil => intro acc; simp
  | cons p rest ih =>
    intro acc
    rw [List.foldl_cons]
    cases hp : parse p with
    | some ev =>
      simp only [hp]
      rw [ih]
      simp [List.filterMap_cons, List.filter_cons, hp]
    | none =>
      simp only [hp]
      rw [ih]
      simp [List.filterMap_cons, List.filter_cons, hp]

/-! Concrete inputs used by witnesses and counterexamples. -/

/-- Event builder: tenant, property id, version, created/modified epoch
milliseconds (other payload fields absent). -/
def mkEvent (t p : String) (v : Int) (c m : Option Int) : PropertyEventJson :=
  { tenantId := some t,
    property := some { emptyPayload with
      propertyId := some p, version := some v,
      auditDetails := some { emptyAudit with
        createdTime := c, lastModifiedTime := m } } }

/-- UPDATE-classified event, version 1 (created 0 ≠ modified 1000). -/
def evU1 : PropertyEventJson := mkEvent "t" "p" 1 (some 0) (some 1000)

/-- UPDATE-classified event, version 2 (created 0 ≠ modified 2000). -/
def evU2 : PropertyEventJson := mkEvent "t" "p" 2 (some 0) (some 2000)

/-- INSERT-classified event (timestamps absent, both default to 0). -/
def evI1 : PropertyEventJson := mkEvent "t" "p" 1 none none

/-- A second INSERT-classified event for the same key. -/
def evI2 : PropertyEventJson := mkEvent "t" "p" 2 none none

/-- INSERT-classified event on a distinct key. -/
def evI3 : PropertyEventJson := mkEvent "t" "q" 1 none none

/-- Edge-case event: `createdTime` missing, `lastModifiedTime` present and
zero. -/
def evEdge : PropertyEventJson := mkEvent "t" "p" 1 none (some 0)

/-- INSERT-classified event of the pseudocode module. -/
def evIns : PropertyEvent :=
  ⟨"t", "pIns", 1, "ACTIVE", "RESIDENTIAL", "INDIVIDUAL", 5, 5⟩

/-- UPDATE-classified event of the pseudocode module. -/
def evUpd : PropertyEvent :=
  ⟨"t", "pUpd", 2, "ACTIVE", "COMMERCIAL", "INDIVIDUAL", 5, 7⟩

/-! Claim theorems. -/

/-- C1 (amended).  In-batch chaining in the DAG's `process_events`: for a
key `k` touched at least once in the batch — provided every event for `k`
after the first is UPDATE-classified, and the first one is as well whenever
a prior persisted `+1` row exists — the signs emitted for `k`, plus 1 for a
prior persisted `+1` row, sum to exactly 1, and the final row emitted for
`k` is the `+1` row carrying the last such event's payload.  The original
claim, quantified over arbitrary INSERT/UPDATE interleavings, is false:
INSERT-classified events never cancel, so a second INSERT-classified event
for the same key leaves a net sign of 2 (`claim1_counterexample`). -/
theorem claim1_in_batch_chaining (table : List ChRow)
    (events : List PropertyEventJson) (k : String × String)
    (h1 : eventsFor k events ≠ [])
    (h2 : ∀ e ∈ (eventsFor k events).tail, is_update e = true)
    (h3 : priorPersisted table k →
      is_update ((eventsFor k events).headI) = true) :
    signSumKey k (process_events table events) +
        (if priorPersisted table k then 1 else 0) = 1 ∧
      (rowsFor k (process_events table events)).getLast? =
        ((eventsFor k events).getLast?).map new_row := by
  have hinv := initial_keyInv table events
  obtain ⟨a, t, hat⟩ := List.exists_cons_of_ne_nil h1
  refine ⟨?_, ?_⟩
  · rw [process_events_eq]
    by_cases hp : priorPersisted table k
    · rw [if_pos hp]
      have hupd_first : is_update a = true := by
        have := h3 hp
        rw [hat] at this
        simpa using this
      have ha_events : a ∈ events ∧ keyOf a = k := by
        have ha_mem : a ∈ eventsFor k events := by
          rw [hat]; exact List.mem_cons_self _ _
        unfold eventsFor at ha_mem
        have := List.mem_filter.mp ha_mem
        exact ⟨this.1, by simpa using this.2⟩
      have hall : ∀ e ∈ events, keyOf e = k → is_update e = true := by
        intro e he hk
        have hmem : e ∈ eventsFor k events := by
          unfold eventsFor
          rw [List.mem_filter]
          exact ⟨he, by simpa using hk⟩
        rw [hat] at hmem
        rcases List.mem_cons.mp hmem with rfl | hmem
        · exact hupd_first
        · exact h2 e (by rw [hat, List.tail_cons]; exact hmem)
      have hsome : (initial_state table events k).isSome := by
        rw [initial_state_isSome]
        exact ⟨(mem_potential_update_keys events k).mpr
          ⟨a, ha_events.1, ha_events.2, hupd_first⟩, hp⟩
      rw [loop_sum_some k events _ hinv hsome hall]
      rfl
    · rw [if_neg hp]
      have hnone : initial_state table events k = none := by
        cases hq : initial_state table events k with
        | none => rfl
        | some r =>
          exact absurd
            ((initial_state_isSome table events k).mp (by rw [hq]; rfl)).2 hp
      rw [loop_sum_none k events _ hinv hnone h2, if_neg h1]
      rfl
  · rw [process_events_eq]
    exact rowsFor_getLast k events _ hinv

/-- C1 counterexample: two INSERT-classified events for the same key in one
batch (no prior persisted row).  Both take the plain-insert branch, so the
signs emitted for the key sum to 2, not 1 — the claim's
"regardless of how INSERT- and UPDATE-classified events interleave" fails. -/
theorem claim1_counterexample :
    signSumKey ("t", "p") (process_events [] [evI1, evI2]) = 2 ∧
      ¬ (signSumKey ("t", "p") (process_events [] [evI1, evI2]) +
          (if priorPersisted [] ("t", "p") then 1 else 0) = 1) := by
  decide

/-- Witness for `claim1_in_batch_chaining`: the spec's own scenario — two
UPDATE events for one key, no prior persisted state: the fallback `+1 v1`
then `-1 v1, +1 v2`; the signs sum to 1 and the last row is version 2's. -/
theorem claim1_witness :
    eventsFor ("t", "p") [evU1, evU2] ≠ [] ∧
      (signSumKey ("t", "p") (process_events [] [evU1, evU2]) +
          (if priorPersisted [] ("t", "p") then 1 else 0) = 1 ∧
        (rowsFor ("t", "p") (process_events [] [evU1, evU2])).getLast? =
          ((eventsFor ("t", "p") [evU1, evU2]).getLast?).map new_row) :=
  ⟨by decide,
    claim1_in_batch_chaining [] [evU1, evU2] ("t", "p")
      (by decide) (by decide) (by decide)⟩

/-- Failing input exhibiting the C2 bug: a window whose processing-state
store already holds a `completed` record with 5 processed rows. -/
def completedRecord5 : WindowRecord :=
  { execDate := 0, windowStart := -15, windowEnd := 0,
    recordsProcessed := 5, status := "completed",
    idempotencyKey := idemKeyOf 0 }

/-- The stores at the failing input: the record above, nothing else. -/
def sysC2 : SysState :=
  { staging := [], collapsing := [], procState := [completedRecord5],
    martWrites := 0 }

/-- C2 (code bug).  Replaying an already-COMPLETED window returns the stored
count (5) and writes nothing to the collapsing or processing-state stores —
but `batch_insert` hands that stored count to `trigger_mart_refresh`, whose
only guard is `records_inserted == 0`, so the mart refresh fires again and
executes its mart `INSERT` (`martWrites` grows by one and the fired flag is
`true`).  This contradicts the claim (and the DAG's stated intent) that a
replay re-invokes no downstream component and performs zero writes. -/
theorem claim2_replay_refires_mart :
    runWindow (fun _ => none) sysC2 0 =
      ({ sysC2 with martWrites := 1 }, 5, true) := by
  decide

/-- C3 (confirmed).  Classification is INSERT exactly on bit-exact equality
of the two timestamps, in both modules; it is a pure total function of the
event.  Edge case: with a missing/zero `createdTime` or `lastModifiedTime`
(missing defaults to 0 in the DAG), the event is INSERT-classified exactly
when both are identically absent or zero. -/
theorem claim3_classification :
    (∀ e : PropertyEvent,
        is_insert e = true ↔ e.created_time = e.last_modified_time) ∧
      (∀ e : PropertyEventJson,
        is_update e = false ↔ createdOf e = modifiedOf e) ∧
      ∀ e : PropertyEventJson,
        ((auditOf e).createdTime = none ∨ (auditOf e).createdTime = some 0 ∨
          (auditOf e).lastModifiedTime = none ∨
          (auditOf e).lastModifiedTime = some 0) →
        (is_update e = false ↔
          (((auditOf e).createdTime = none ∨
              (auditOf e).createdTime = some 0) ∧
            ((auditOf e).lastModifiedTime = none ∨
              (auditOf e).lastModifiedTime = some 0))) := by
  refine ⟨?_, ?_, ?_⟩
  · intro e; simp [is_insert]
  · intro e; simp [is_update]
  · intro e hyp
    have h2 : is_update e = false ↔ createdOf e = modifiedOf e := by
      simp [is_update]
    rw [h2]
    unfold createdOf modifiedOf
    cases hc : (auditOf e).createdTime with
    | none =>
      cases hm : (auditOf e).lastModifiedTime with
      | none => simp
      | some mv => simp [eq_comm]
    | some cv =>
      cases hm : (auditOf e).lastModifiedTime with
      | none => simp
      | some mv =>
        rw [hc, hm] at hyp
        simp at hyp ⊢
        rcases hyp with rfl | rfl <;> simp [eq_comm]

/-- Witness for `claim3_classification`: the edge-case event with
`createdTime` missing and `lastModifiedTime` present as zero is
INSERT-classified, and the iff instantiates as claimed. -/
theorem claim3_witness :
    ((auditOf evEdge).createdTime = none ∨
        (auditOf evEdge).createdTime = some 0 ∨
        (auditOf evEdge).lastModifiedTime = none ∨
        (auditOf evEdge).lastModifiedTime = some 0) ∧
      (is_update evEdge = false ↔
        (((auditOf evEdge).createdTime = none ∨
            (auditOf evEdge).createdTime = some 0) ∧
          ((auditOf evEdge).lastModifiedTime = none ∨
            (auditOf evEdge).lastModifiedTime = some 0))) :=
  ⟨by decide, claim3_classification.2.2 evEdge (by decide)⟩

/-- C4 (confirmed).  An UPDATE-classified event with a present prior state
makes the encoder emit exactly two rows in fixed order: first an exact copy
of the prior state's payload and version with `sign = -1`, then the `+1`
row with the event's version and payload — in the DAG loop and in the
pseudocode's `generate_collapsing_rows` alike. -/
theorem claim4_update_with_prior :
    (∀ (cs : StateMap) (e : PropertyEventJson) (old : ChRow),
        is_update e = true → cs (keyOf e) = some old →
        (stepEvent cs e).1 = [{ old with sign := -1 }, new_row e] ∧
          (new_row e).sign = 1) ∧
      ∀ (e : PropertyEvent) (old : CollapsingRow), is_insert e = false →
        generate_collapsing_rows e (some old) =
          [cancelRow old, plusRow e] := by
  constructor
  · intro cs e old hu hold
    exact ⟨by rw [stepEvent_eq_update hu hold], rfl⟩
  · intro e old h
    unfold generate_collapsing_rows
    rw [h]
    rfl

/-- Witness for `claim4_update_with_prior`: a concrete UPDATE against a
stored version-1 row yields exactly the `-1` copy then the `+1` row. -/
theorem claim4_witness :
    is_update evU2 = true ∧
      mapUpd emptyState ("t", "p") (new_row evI1) (keyOf evU2) =
        some (new_row evI1) ∧
      ((stepEvent (mapUpd emptyState ("t", "p") (new_row evI1)) evU2).1 =
          [{ new_row evI1 with sign := -1 }, new_row evU2] ∧
        (new_row evU2).sign = 1) ∧
      is_insert evUpd = false ∧
      generate_collapsing_rows evUpd (some (plusRow evIns)) =
        [cancelRow (plusRow evIns), plusRow evUpd] :=
  ⟨by decide, by decide,
    claim4_update_with_prior.1 _ evU2 _ (by decide) (by decide),
    by decide, claim4_update_with_prior.2 evUpd _ (by decide)⟩

/-- C5 (amended).  An UPDATE-classified event with no prior state degrades
to a fallback insert: exactly one `+1` row, never a `-1` row — but, contrary
to the original claim, the code does not log the occurrence: no branch of
either loop body contains a logging call on this path
(`claim5_counterexample`). -/
theorem claim5_fallback_insert :
    (∀ (cs : StateMap) (e : PropertyEventJson),
        is_update e = true → cs (keyOf e) = none →
        (stepEvent cs e).1 = [new_row e] ∧ (new_row e).sign = 1 ∧
          stepEventLogRecords cs e = []) ∧
      ∀ e : PropertyEvent, is_insert e = false →
        generate_collapsing_rows e none = [plusRow e] ∧
          (plusRow e).sign = 1 := by
  constructor
  · intro cs e hu hold
    exact ⟨by rw [stepEvent_eq_fallback hu hold], rfl, rfl⟩
  · intro e h
    refine ⟨?_, rfl⟩
    unfold generate_collapsing_rows
    rw [h]
    rfl

/-- C5 counterexample: the fallback actually occurs at this input (a single
`+1` row is emitted for an UPDATE-classified event with empty state), yet
the iteration's observable log trace is empty — the source branch contains
no logging statement — refuting "logs this occurrence as a data-quality
signal". -/
theorem claim5_counterexample :
    (stepEvent emptyState evU1).1 = [new_row evU1] ∧
      stepEventLogRecords emptyState evU1 = [] :=
  ⟨by decide, rfl⟩

/-- Witness for `claim5_fallback_insert` at concrete inputs on both
modules. -/
theorem claim5_witness :
    is_update evU1 = true ∧
      ((stepEvent emptyState evU1).1 = [new_row evU1] ∧
        (new_row evU1).sign = 1 ∧ stepEventLogRecords emptyState evU1 = []) ∧
      is_insert evUpd = false ∧
      (generate_collapsing_rows evUpd none = [plusRow evUpd] ∧
        (plusRow evUpd).sign = 1) :=
  ⟨by decide, claim5_fallback_insert.1 emptyState evU1 (by decide) rfl,
    by decide, claim5_fallback_insert.2 evUpd (by decide)⟩

/-- C6 (confirmed).  The StateResolver: the requested key set is
duplicate-free (one entry per key however many events share it), the lookup
is restricted to `sign = +1` rows, and out of multiple returned rows per key
only the highest-version one is kept as the prior state (and it genuinely is
a maximal-version live row of the table for that key).  The pseudocode
module's `list(set(keys))` deduplication is likewise duplicate-free. -/
theorem claim6_state_resolver (events : List PropertyEventJson)
    (table : List ChRow) :
    (potential_update_keys events).Nodup ∧
      (∀ r ∈ queryRows rowKey ChRow.version ChRow.sign table
          (potential_update_keys events), r.sign = 1) ∧
      (∀ (k : String × String) (r : ChRow),
        initial_state table events k = some r →
          r ∈ table ∧ r.sign = 1 ∧ rowKey r = k ∧
            ∀ r' ∈ table, r'.sign = 1 → rowKey r' = k →
              r'.version ≤ r.version) ∧
      ∀ events03 : List PropertyEvent,
        (((events03.filter (fun e => !is_insert e)).map evKey).dedup).Nodup := by
  refine ⟨potential_update_keys_nodup events, ?_, ?_,
    fun _ => List.nodup_dedup _⟩
  · intro r hr
    exact ((mem_queryRows _ _ _ _ _ _).mp hr).2.1
  · intro k r h
    exact initial_state_spec table events k r h

/-- Witness for `claim6_state_resolver`: with two live rows (versions 1 and
2) stored for the key and one UPDATE event requesting it, the resolver keeps
the version-2 row, and the theorem certifies it maximal. -/
theorem claim6_witness :
    initial_state [new_row evU1, new_row evU2] [evU1] ("t", "p") =
        some (new_row evU2) ∧
      (new_row evU2 ∈ [new_row evU1, new_row evU2] ∧
        (new_row evU2).sign = 1 ∧ rowKey (new_row evU2) = ("t", "p") ∧
        ∀ r' ∈ [new_row evU1, new_row evU2], r'.sign = 1 →
          rowKey r' = ("t", "p") → r'.version ≤ (new_row evU2).version) :=
  ⟨by decide,
    (claim6_state_resolver [evU1] [new_row evU1, new_row evU2]).2.2.1
      ("t", "p") (new_row evU2) (by decide)⟩

/-- C7 (amended).  In the DAG's `process_events`, rows are emitted in
delivery order: the output is the in-order concatenation of per-event row
groups (one group per event, groups in input position order), so for
`i < j` every row of event `i` precedes every row of event `j`.  The
pseudocode's `process_batch` does **not** preserve delivery order across
classes: it emits all INSERT-classified events' rows before all
UPDATE-classified events' rows (`claim7_counterexample`). -/
theorem claim7_delivery_order :
    (∀ (table : List ChRow) (events : List PropertyEventJson),
        process_events table events =
          (segments (initial_state table events) events).flatten) ∧
      (∀ (cs : StateMap) (es : List PropertyEventJson),
        (segments cs es).length = es.length) ∧
      ∀ (table : List CollapsingRow) (events : List PropertyEvent),
        (process_batch table events).1 =
          batchInsRows events ++
            (batchUpdLoop ([], batchStates table events)
              (events.filter (fun e => !is_insert e))).1 := by
  refine ⟨?_, segments_length, ?_⟩
  · intro table events
    rw [process_events_eq]
    exact loopRows_eq_join _ events
  · intro table events
    show (batchUpdLoop (batchInsRows events, batchStates table events)
      (events.filter (fun e => !is_insert e))).1 = _
    rw [batchUpdLoop_fst]

/-- C7 counterexample: `process_batch` on the batch `[evUpd, evIns]` — an
UPDATE-classified event at input position 0 and an INSERT-classified one at
position 1 — emits position 1's row *first*: a row of the later event
precedes the row of the earlier one, refuting delivery-order emission as
stated. -/
theorem claim7_counterexample :
    (process_batch [] [evUpd, evIns]).1 = [plusRow evIns, plusRow evUpd] ∧
      plusRow evIns ≠ plusRow evUpd := by
  decide

/-- C8 (confirmed).  `fetch_raw_events` drops each unparseable payload with
one logged error, keeps every well-formed payload in delivery order, and —
being a total function of its inputs — never fails the window on a malformed
payload. -/
theorem claim8_malformed_dropped (parse : String → Option PropertyEventJson)
    (payloads : List String) :
    (fetch_raw_events parse payloads).1 = payloads.filterMap parse ∧
      (fetch_raw_events parse payloads).2 =
        (payloads.filter (fun p => (parse p).isNone)).map
          (fun p => "Failed to parse JSON: " ++ p) := by
  unfold fetch_raw_events
  rw [fetch_foldl]
  constructor <;> simp

/-- C9 (confirmed).  A batch of INSERT-classified events only: one `+1` row
per event, no `-1` rows, and no prior-state lookup is issued (the DAG's
`potential_update_keys` set stays empty and the query is guarded by it; the
pseudocode's `update_events` class is empty likewise). -/
theorem claim9_insert_only_batch (table : List ChRow)
    (events : List PropertyEventJson) (table03 : List CollapsingRow)
    (events03 : List PropertyEvent)
    (hdag : ∀ e ∈ events, is_update e = false)
    (h03 : ∀ e ∈ events03, is_insert e = true) :
    (process_events table events).length = events.length ∧
      (∀ r ∈ process_events table events, r.sign = 1) ∧
      dagLookupPerformed events = false ∧
      (process_batch table03 events03).1.length = events03.length ∧
      (∀ r ∈ (process_batch table03 events03).1, r.sign = 1) ∧
      events03.filter (fun e => !is_insert e) = [] := by
  have hmap : process_events table events = events.map new_row := by
    rw [process_events_eq]
    exact loopRows_insert_only events _ hdag
  have hfil : events03.filter (fun e => !is_insert e) = [] := by
    rw [List.filter_eq_nil_iff]
    intro e he
    simp [h03 e he]
  have hfil2 : events03.filter (fun e => is_insert e) = events03 := by
    rw [List.filter_eq_self]
    intro e he
    exact h03 e he
  have hrows : (process_batch table03 events03).1 = events03.map plusRow := by
    show (batchUpdLoop (batchInsRows events03, batchStates table03 events03)
      (events03.filter (fun e => !is_insert e))).1 = _
    rw [hfil]
    show batchInsRows events03 = _
    unfold batchInsRows
    rw [hfil2, foldl_gen_insert events03 [] h03]
    exact List.nil_append _
  refine ⟨?_, ?_, ?_, ?_, ?_, hfil⟩
  · rw [hmap, List.length_map]
  · intro r hr
    rw [hmap] at hr
    obtain ⟨e, -, rfl⟩ := List.mem_map.mp hr
    rfl
  · unfold dagLookupPerformed potential_update_keys
    rw [pukAux_insert_only events [] hdag]
    rfl
  · rw [hrows, List.length_map]
  · intro r hr
    rw [hrows] at hr
    obtain ⟨e, -, rfl⟩ := List.mem_map.mp hr
    rfl

/-- Witness for `claim9_insert_only_batch`: two INSERT-only events on
distinct keys through the DAG loop, one through the pseudocode batch. -/
theorem claim9_witness :
    (∀ e ∈ [evI1, evI3], is_update e = false) ∧
      ((process_events [] [evI1, evI3]).length = [evI1, evI3].length ∧
        (∀ r ∈ process_events [] [evI1, evI3], r.sign = 1) ∧
        dagLookupPerformed [evI1, evI3] = false ∧
        (process_batch [] [evIns]).1.length = [evIns].length ∧
        (∀ r ∈ (process_batch [] [evIns]).1, r.sign = 1) ∧
        [evIns].filter (fun e => !is_insert e) = []) :=
  ⟨by decide,
    claim9_insert_only_batch [] [evI1, evI3] [] [evIns]
      (by decide) (by decide)⟩

/-- Event whose payload carries explicit JSON `null` areas and explicit zero
timestamps (all other fields absent). -/
def nullishEvent (t p : String) : PropertyEventJson :=
  { tenantId := some t,
    property := some { emptyPayload with
      propertyId := some p,
      landArea := some none,
      superBuiltUpArea := some none,
      auditDetails := some { emptyAudit with
        createdTime := some 0, lastModifiedTime := some 0 } } }

/-- C10 (confirmed).  Silent defaulting at the parse boundary: no event is
ever rejected (each contributes at least one row), and the emitted row
defaults a missing `version` to 1, missing string fields to `""`, missing or
null areas to 0.0, missing `noOfFloors` to 0 and a missing or zero
created/modified timestamp to a null timestamp.  The second conjunct is the
fully-absent payload; the third exercises explicit JSON `null` areas and
explicit zero timestamps. -/
theorem claim10_silent_defaults :
    (∀ (table : List ChRow) (events : List PropertyEventJson),
        events.length ≤ (process_events table events).length) ∧
      (∀ tid : Option String,
        new_row { tenantId := tid, property := none } =
          { tenant_id := tid.getD "", property_id := "", version := 1,
            id := "", survey_id := "", account_id := "",
            old_property_id := "", property_type := "", usage_category := "",
            ownership_category := "", status := "",
            acknowledgement_number := "", creation_reason := "",
            no_of_floors := 0, source := "", channel := "", land_area := 0,
            super_built_up_area := 0, created_by := "", created_time := none,
            last_modified_by := "", last_modified_time := none,
            sign := 1 }) ∧
      ∀ t p : String,
        new_row (nullishEvent t p) =
          { tenant_id := t, property_id := p, version := 1, id := "",
            survey_id := "", account_id := "", old_property_id := "",
            property_type := "", usage_category := "",
            ownership_category := "", status := "",
            acknowledgement_number := "", creation_reason := "",
            no_of_floors := 0, source := "", channel := "", land_area := 0,
            super_built_up_area := 0, created_by := "", created_time := none,
            last_modified_by := "", last_modified_time := none,
            sign := 1 } := by
  refine ⟨?_, ?_, ?_⟩
  · intro table events
    rw [process_events_eq]
    exact loopRows_length_ge events _
  · intro tid; rfl
  · intro t p; rfl

end PropertyCollapsing
